import Mathlib

/-!
Shallow embedding of the deskhelp core (src/oai.rs `process_message`,
src/main.rs `wack`): the per-channel conversation store, the token-budget
window selector, and the streaming response renderer with spillover.

Text is modelled as `List Char` (Rust `String` as a sequence of characters).
Time is abstracted: each incoming stream chunk carries a boolean saying
whether `last_update.elapsed() >= UPDATE_INTERVAL` held when it arrived.
Discord message edits can fail; the environment is modelled by an oracle
`e : Nat -> Bool` giving the success of the n-th edit call.
-/

/-- Rust `String` contents, as a sequence of characters. -/
abbrev Text := List Char

/-- Literal helper: the character sequence of a Lean string literal. -/
def txt (s : String) : Text := s.data

/-- `startsWith pat s` : `pat` is an initial segment of `s`. -/
def startsWith : Text → Text → Bool
  | [], _ => true
  | _ :: _, [] => false
  | a :: as, b :: bs => (a = b) && startsWith as bs

/-- `occursIn pat s` : `pat` occurs contiguously somewhere inside `s`
(models Rust `str::contains`). -/
def occursIn (pat : Text) : Text → Bool
  | [] => startsWith pat []
  | s@(_ :: rest) => startsWith pat s || occursIn pat rest

/-- Message roles (`ChatCompletionRequestMessage` variants used by the bot). -/
inductive Role
  | system
  | user
  | assistant
deriving DecidableEq, Repr

/-- One turn of a conversation (role plus text content). -/
structure Msg where
  role : Role
  content : Text
deriving DecidableEq, Repr

/-- The `ai_context` map: channel id to ordered turn history
(`HashMap<String, Vec<ChatCompletionRequestMessage>>`, as an association list). -/
abbrev Store := List (String × List Msg)

/-- Lookup of a channel's record in the store. -/
def lookupStore : Store → String → Option (List Msg)
  | [], _ => none
  | (k, v) :: rest, id => if k = id then some v else lookupStore rest id

/-- `context.entry(id).or_default()` read: the channel's history, `[]` if absent. -/
def snapshot (s : Store) (id : String) : List Msg :=
  (lookupStore s id).getD []

/-- Whether the store holds a record for the channel. -/
def containsId (s : Store) (id : String) : Bool :=
  (lookupStore s id).isSome

/-- Update (or insert) a channel's history. -/
def setStore : Store → String → List Msg → Store
  | [], id, v => [(id, v)]
  | (k, w) :: rest, id, v =>
    if k = id then (id, v) :: rest else (k, w) :: setStore rest id v

/-- `context.entry(id).or_default().push(m)` : append a turn, creating the
record if absent. -/
def appendTurn (s : Store) (id : String) (m : Msg) : Store :=
  setStore s id (snapshot s id ++ [m])

/-- `context.entry(id).or_default().clear()` (the `wack` command): truncate
the channel's history to empty, creating the record if absent. -/
def clearHistory (s : Store) (id : String) : Store :=
  setStore s id []

/-- Tokenizer / budget configuration: the configured context window
(`AI_CONTEXT_WINDOW`) and the collaborator
`get_chat_completion_max_tokens("o1-mini", [m])`, which reports the
*remaining* context capacity for a single message. -/
structure SelectorCfg where
  contextWindow : Nat
  remaining : Msg → Nat

/-- Rust `usize` subtraction: defined only when no underflow occurs
(an underflowing subtraction aborts the request). -/
def checkedSub (a b : Nat) : Option Nat :=
  if b ≤ a then some (a - b) else none

/-- Estimated cost of one message:
`context_window - get_chat_completion_max_tokens(...)`. -/
def msgCost (cfg : SelectorCfg) (m : Msg) : Option Nat :=
  checkedSub cfg.contextWindow (cfg.remaining m)

/-- Sum of estimated costs over a list of messages (each summand is the
unique value of `msgCost` when that is defined). -/
def costSum (cfg : SelectorCfg) (l : List Msg) : Nat :=
  (l.map (fun m => (msgCost cfg m).getD 0)).sum

/-- The `for msg in messages.iter().rev()` loop of `process_message`
(src/oai.rs lines 315-325): walk most-recent-first, `break` as soon as
including the current message would exceed `token_limit`; `none` when a
cost computation underflows.  Returns the picked messages (most-recent
first) together with the final `current_tokens`. -/
def selectLoop (cfg : SelectorCfg) (tokenLimit : Nat) (current : Nat) :
    List Msg → Option (List Msg × Nat)
  | [] => some ([], current)
  | m :: rest =>
    match msgCost cfg m with
    | none => none
    | some c =>
      if current + c > tokenLimit then some ([], current)
      else
        match selectLoop cfg tokenLimit (current + c) rest with
        | none => none
        | some (sel, cur) => some (m :: sel, cur)

/-- The token counting and context building of `process_message`
(src/oai.rs lines 302-329): compute the system message's cost, run the
reverse greedy loop over the history, push the system message last and
reverse back to chronological order. -/
def windowSelect (cfg : SelectorCfg) (tokenLimit : Nat) (sysMsg : Msg)
    (messages : List Msg) : Option (List Msg) :=
  match msgCost cfg sysMsg with
  | none => none
  | some sysTokens =>
    match selectLoop cfg tokenLimit sysTokens messages.reverse with
    | none => none
    | some (sel, _) => some ((sel ++ [sysMsg]).reverse)

/-- One pull from the completion stream (`stream.try_next().await`):
`chunk content finish timer` is `Ok(Some(chunk))` where `content` is
`chunk.choices[0].delta.content`, `finish` is
`chunk.choices[0].finish_reason.is_some()`, and `timer` records whether
`last_update.elapsed() >= UPDATE_INTERVAL` held when the chunk was
handled; `errPull` is `Err(_)`, which exits the `while let Ok` loop
silently.  Exhaustion of the pull list models `Ok(None)`. -/
inductive Pull
  | chunk (content : Option Text) (finish : Bool) (timer : Bool)
  | errPull

/-- How the streaming loop ended: `success t` carries the `total_response`
pushed into the channel context, `streamError` is the `Ok(None)` branch
("Error while streaming response!"), `silentError` the `Err(_)` exit. -/
inductive Outcome
  | success (committed : Text)
  | streamError
  | silentError
deriving DecidableEq, Repr

/-- Renderer state during one generation.  `sinks` lists the contents of
every Discord message used so far, most recent (= `sent_msg`, the active
sink) first; `editCount` indexes the edit-success oracle.  `spills` and
`sinceLastSuccess` are ghost observers used only in statements: `spills`
records, for each streaming spillover, the seed text of the new sink
paired with the text accumulated since the last *successful* edit;
they do not influence any behaviour. -/
structure RState where
  response : Text
  totalResponse : Text
  sinceLastUpdate : Text
  hasThreeTickBacks : Bool
  sinks : List Text
  editCount : Nat
  spills : List (Text × Text)
  sinceLastSuccess : Text
deriving DecidableEq, Repr

/-- State after `msg.reply(&ctx.http, "Generating response...")`. -/
def initRState : RState where
  response := []
  totalResponse := []
  sinceLastUpdate := []
  hasThreeTickBacks := false
  sinks := [txt "Generating response..."]
  editCount := 0
  spills := []
  sinceLastSuccess := []

/-- `sent_msg.edit(...)` : consume one oracle index; on success the active
sink's content becomes `text`, on failure it is unchanged. -/
def editActive (e : Nat → Bool) (st : RState) (text : Text) : RState × Bool :=
  let ok := e st.editCount
  ({ st with
      sinks := if ok then text :: st.sinks.tail else st.sinks,
      editCount := st.editCount + 1 }, ok)

/-- The fragment-handling part of the stream loop body (src/oai.rs lines
357-384): append the delta content to `response`, `total_response` and
`since_last_update`; when the update interval has elapsed, toggle the
code-fence flag, try to edit the active sink to `response`, and on edit
failure open a new sink ("Continuing response..."), set
`response = since_last_update` and try to write it there; finally reset
`since_last_update`. -/
def applyContent (e : Nat → Bool) (st : RState) (c : Option Text) (tm : Bool) :
    RState :=
  match c with
  | none => st
  | some content =>
    let st := { st with
        response := st.response ++ content,
        totalResponse := st.totalResponse ++ content,
        sinceLastUpdate := st.sinceLastUpdate ++ content,
        sinceLastSuccess := st.sinceLastSuccess ++ content }
    if tm then
      let st := if occursIn (txt "```") st.sinceLastUpdate then
          { st with hasThreeTickBacks := !st.hasThreeTickBacks } else st
      let p := editActive e st st.response
      let st :=
        if p.2 then { p.1 with sinceLastSuccess := [] }
        else
          let st := p.1
          let seed := st.sinceLastUpdate
          let st := { st with
              sinks := txt "Continuing response..." :: st.sinks,
              spills := st.spills ++ [(seed, st.sinceLastSuccess)],
              response := seed }
          let q := editActive e st st.response
          if q.2 then { q.1 with sinceLastSuccess := [] } else q.1
      { st with sinceLastUpdate := [] }
    else st

/-- The completion branch (src/oai.rs lines 386-408): append the footer
(elapsed-time metrics and the disclaimer, abstracted as `footer` since it
depends on wall-clock times) to `response` and edit the active sink; on
failure open a new sink ("Continuing response..."), set
`response = since_last_update` and try to write it there (a failure of
that inner edit is only logged). -/
def finalizeResp (e : Nat → Bool) (footer : Text) (st : RState) : RState :=
  let p := editActive e st (st.response ++ footer)
  if p.2 then p.1
  else
    let st := { p.1 with
        sinks := txt "Continuing response..." :: p.1.sinks,
        response := p.1.sinceLastUpdate }
    (editActive e st st.response).1

/-- The `while let Ok(result) = stream.try_next().await` loop
(src/oai.rs lines 354-435).  A `finish_reason` runs the completion branch
and ends with `success total_response` (the text pushed into the channel
context); exhaustion is the `Ok(None)` branch, which edits the active sink
to "Error generating response!" and ends with `streamError`; an `Err`
item exits silently. -/
def runPulls (e : Nat → Bool) (footer : Text) :
    List Pull → RState → RState × Outcome
  | [], st =>
    ((editActive e st (txt "Error generating response!")).1,
      Outcome.streamError)
  | Pull.errPull :: _, st => (st, Outcome.silentError)
  | Pull.chunk c f tm :: rest, st =>
    let st1 := applyContent e st c tm
    if f then (finalizeResp e footer st1, Outcome.success st1.totalResponse)
    else runPulls e footer rest st1

/-- Make the assistant turn committed after a successful stream. -/
def mkAssistantMsg (t : Text) : Msg := ⟨Role.assistant, t⟩

/-- `process_message` end to end (src/oai.rs lines 231-437), store side:
push the new user turn into the channel context and clone the history;
build the submission window (a `none` selection models the
`expect`-abort on tokenizer/cost failure, which happens after the user
turn was pushed); stream; on `finish_reason` push the assistant turn
carrying `total_response`.  Returns the final store, the submitted
window (when built) and the stream result (when streaming was reached). -/
def processMessage (cfg : SelectorCfg) (tokenLimit : Nat) (sysMsg : Msg)
    (e : Nat → Bool) (footer : Text) (pulls : List Pull)
    (store : Store) (chan : String) (userMsg : Msg) :
    Store × Option (List Msg) × Option (RState × Outcome) :=
  let store1 := appendTurn store chan userMsg
  let hist := snapshot store1 chan
  match windowSelect cfg tokenLimit sysMsg hist with
  | none => (store1, none, none)
  | some sel =>
    let r := runPulls e footer pulls initRState
    match r.2 with
    | Outcome.success t =>
      (appendTurn store1 chan (mkAssistantMsg t), some sel, some r)
    | _ => (store1, some sel, some r)

/-- Fold the fragment-handling step over a list of pulls (the behaviour of
the loop on a run that never reaches a `finish_reason` or an `Err`). -/
def streamFold (e : Nat → Bool) : List Pull → RState → RState
  | [], st => st
  | Pull.chunk c _ tm :: rest, st => streamFold e rest (applyContent e st c tm)
  | Pull.errPull :: rest, st => streamFold e rest st

/-- A pull list with no `finish_reason` and no `Err` item. -/
def streamClean : List Pull → Bool
  | [] => true
  | Pull.chunk _ f _ :: rest => !f && streamClean rest
  | Pull.errPull :: _ => false

/-- Whether the loop reaches a `finish_reason` (a `finish` chunk occurring
before any `Err` item). -/
def reachesFinish : List Pull → Bool
  | [] => false
  | Pull.errPull :: _ => false
  | Pull.chunk _ f _ :: rest => f || reachesFinish rest

/-- Concatenation of the delta contents the loop consumes: everything up
to and including the first `finish` chunk (nothing past an `Err` item). -/
def deliveredText : List Pull → Text
  | [] => []
  | Pull.errPull :: _ => []
  | Pull.chunk c f _ :: rest =>
    c.getD [] ++ (if f then [] else deliveredText rest)

/-- The unflushed tail determined purely by the input stream: the
concatenation of the delta contents delivered since the last flush
attempt (a flush attempt happens exactly at a chunk that carries content
while the update interval has elapsed). -/
def fragsAcc : List Pull → Text → Text
  | [], acc => acc
  | Pull.chunk c _ tm :: rest, acc =>
    fragsAcc rest (if c.isSome && tm then [] else acc ++ c.getD [])
  | Pull.errPull :: rest, acc => fragsAcc rest acc

section StoreLemmas

theorem lookupStore_setStore_self (s : Store) (id : String) (v : List Msg) :
    lookupStore (setStore s id v) id = some v := by
  induction s with
  | nil => simp [setStore, lookupStore]
  | cons hd tl ih =>
    obtain ⟨k, w⟩ := hd
    by_cases h : k = id
    · simp [setStore, lookupStore, h]
    · simp [setStore, lookupStore, h, ih]

theorem snapshot_appendTurn_self (s : Store) (id : String) (m : Msg) :
    snapshot (appendTurn s id m) id = snapshot s id ++ [m] := by
  simp [appendTurn, snapshot, lookupStore_setStore_self]

end StoreLemmas

section SelectorLemmas

/-- The greedy loop picks an initial segment of its input list, and the
running total it returns is the starting total plus the summed costs of
the picked messages, which stays within `tokenLimit` unless nothing was
picked. -/
theorem selectLoop_spec (cfg : SelectorCfg) (tokenLimit : Nat) :
    ∀ (l : List Msg) (current : Nat) (sel : List Msg) (cur : Nat),
      selectLoop cfg tokenLimit current l = some (sel, cur) →
      (∃ t, sel ++ t = l) ∧ cur = current + costSum cfg sel ∧
        (sel = [] ∨ cur ≤ tokenLimit) := by
  intro l
  induction l with
  | nil =>
    intro current sel cur h
    simp [selectLoop] at h
    obtain ⟨h1, h2⟩ := h
    subst h1; subst h2
    exact ⟨⟨[], rfl⟩, by simp [costSum], Or.inl rfl⟩
  | cons m rest ih =>
    intro current sel cur h
    simp only [selectLoop] at h
    cases hc : msgCost cfg m with
    | none => rw [hc] at h; exact absurd h (by simp)
    | some c =>
      rw [hc] at h
      by_cases hgt : current + c > tokenLimit
      · simp [hgt] at h
        obtain ⟨h1, h2⟩ := h
        subst h1; subst h2
        exact ⟨⟨m :: rest, rfl⟩, by simp [costSum], Or.inl rfl⟩
      · simp [hgt] at h
        cases hrec : selectLoop cfg tokenLimit (current + c) rest with
        | none => rw [hrec] at h; exact absurd h (by simp)
        | some p =>
          obtain ⟨sel', cur'⟩ := p
          rw [hrec] at h
          simp at h
          obtain ⟨h1, h2⟩ := h
          obtain ⟨⟨t, ht⟩, hsum, hle⟩ := ih (current + c) sel' cur' hrec
          subst h1; subst h2
          refine ⟨⟨t, by simp [ht]⟩, ?_, ?_⟩
          · simp [costSum, hc] at hsum ⊢
            omega
          · right
            rcases hle with h | h
            · subst h
              simp [costSum, hc] at hsum
              omega
            · exact h

end SelectorLemmas

/-- C3: whenever a submission window is produced, it is the system message
followed by a chronologically-contiguous trailing subsequence (a suffix)
of the history, in original chronological order. -/
theorem windowSelect_suffix (cfg : SelectorCfg) (tokenLimit : Nat)
    (sysMsg : Msg) (messages : List Msg) (r : List Msg)
    (h : windowSelect cfg tokenLimit sysMsg messages = some r) :
    ∃ rest, r = sysMsg :: rest ∧ rest <:+ messages := by
  cases hsc : msgCost cfg sysMsg with
  | none => simp [windowSelect, hsc] at h
  | some sysTokens =>
    cases hloop : selectLoop cfg tokenLimit sysTokens messages.reverse with
    | none => simp [windowSelect, hsc, hloop] at h
    | some p =>
      obtain ⟨sel, cur⟩ := p
      simp only [windowSelect, hsc, hloop] at h
      simp at h
      obtain ⟨⟨t, ht⟩, -, -⟩ := selectLoop_spec cfg tokenLimit _ _ _ _ hloop
      refine ⟨sel.reverse, h.symm, ⟨t.reverse, ?_⟩⟩
      have := congrArg List.reverse ht
      simpa using this

/-- Closed witness for `windowSelect_suffix`. -/
theorem windowSelect_suffix_witness :
    windowSelect ⟨10, fun _ => 7⟩ 100 ⟨Role.system, txt "s"⟩
        [⟨Role.user, txt "a"⟩, ⟨Role.user, txt "b"⟩] =
      some [⟨Role.system, txt "s"⟩, ⟨Role.user, txt "a"⟩, ⟨Role.user, txt "b"⟩] ∧
    ∃ rest, [⟨Role.system, txt "s"⟩, ⟨Role.user, txt "a"⟩,
        (⟨Role.user, txt "b"⟩ : Msg)] = ⟨Role.system, txt "s"⟩ :: rest ∧
      rest <:+ [⟨Role.user, txt "a"⟩, ⟨Role.user, txt "b"⟩] :=
  ⟨by decide, windowSelect_suffix ⟨10, fun _ => 7⟩ 100 _ _ _ (by decide)⟩

/-- C4: when the system message's cost is within the budget, the summed
estimated cost of the selected history turns (everything after the
leading system message) is at most `token_limit` minus that cost. -/
theorem windowSelect_budget (cfg : SelectorCfg) (tokenLimit : Nat)
    (sysMsg : Msg) (messages : List Msg) (r : List Msg) (sc : Nat)
    (h : windowSelect cfg tokenLimit sysMsg messages = some r)
    (hsc : msgCost cfg sysMsg = some sc) (hpos : sc < tokenLimit) :
    costSum cfg (r.drop 1) ≤ tokenLimit - sc := by
  cases hloop : selectLoop cfg tokenLimit sc messages.reverse with
  | none => simp [windowSelect, hsc, hloop] at h
  | some p =>
    obtain ⟨sel, cur⟩ := p
    simp only [windowSelect, hsc, hloop] at h
    simp at h
    obtain ⟨-, hsum, hle⟩ := selectLoop_spec cfg tokenLimit _ _ _ _ hloop
    have hdrop : r.drop 1 = sel.reverse := by rw [← h]; rfl
    have hrs : costSum cfg sel.reverse = costSum cfg sel := by
      simp [costSum, List.map_reverse, List.sum_reverse]
    rw [hdrop, hrs]
    rcases hle with hnil | hbound
    · subst hnil; simp [costSum]
    · omega

/-- Closed witness for `windowSelect_budget`. -/
theorem windowSelect_budget_witness :
    windowSelect ⟨10, fun _ => 7⟩ 100 ⟨Role.system, txt "s"⟩
        [⟨Role.user, txt "a"⟩] =
      some [⟨Role.system, txt "s"⟩, ⟨Role.user, txt "a"⟩] ∧
    msgCost ⟨10, fun _ => 7⟩ ⟨Role.system, txt "s"⟩ = some 3 ∧ 3 < 100 ∧
    costSum ⟨10, fun _ => 7⟩
        ([⟨Role.system, txt "s"⟩, (⟨Role.user, txt "a"⟩ : Msg)].drop 1) ≤
      100 - 3 :=
  ⟨by decide, by decide, by decide,
    windowSelect_budget ⟨10, fun _ => 7⟩ 100 ⟨Role.system, txt "s"⟩
      [⟨Role.user, txt "a"⟩] _ 3 (by decide) (by decide) (by decide)⟩

/-- C7: every produced selection starts with the system message (so it is
never empty), whatever the history and the budget — including budgets the
system message alone already exceeds. -/
theorem windowSelect_nonempty (cfg : SelectorCfg) (tokenLimit : Nat)
    (sysMsg : Msg) (messages : List Msg) (r : List Msg)
    (h : windowSelect cfg tokenLimit sysMsg messages = some r) :
    r.head? = some sysMsg ∧ r ≠ [] := by
  obtain ⟨rest, hr, -⟩ :=
    windowSelect_suffix cfg tokenLimit sysMsg messages r h
  subst hr
  exact ⟨rfl, by simp⟩

/-- Closed witness for `windowSelect_nonempty`: the system message's own
cost (9) exceeds the budget (5), and the selection is still `[sysMsg]`. -/
theorem windowSelect_nonempty_witness :
    windowSelect ⟨10, fun _ => 1⟩ 5 ⟨Role.system, txt "s"⟩
        [⟨Role.user, txt "a"⟩] = some [⟨Role.system, txt "s"⟩] ∧
    ([⟨Role.system, txt "s"⟩] : List Msg).head? =
        some ⟨Role.system, txt "s"⟩ ∧
    ([⟨Role.system, txt "s"⟩] : List Msg) ≠ [] :=
  ⟨by decide,
    (windowSelect_nonempty ⟨10, fun _ => 1⟩ 5 ⟨Role.system, txt "s"⟩
      [⟨Role.user, txt "a"⟩] _ (by decide)).1,
    (windowSelect_nonempty ⟨10, fun _ => 1⟩ 5 ⟨Role.system, txt "s"⟩
      [⟨Role.user, txt "a"⟩] _ (by decide)).2⟩

/-- If every message of the list reports a remaining capacity within the
context window, the greedy loop never aborts. -/
theorem selectLoop_isSome (cfg : SelectorCfg) (tokenLimit : Nat) :
    ∀ (l : List Msg) (current : Nat),
      (∀ m ∈ l, cfg.remaining m ≤ cfg.contextWindow) →
      (selectLoop cfg tokenLimit current l).isSome := by
  intro l
  induction l with
  | nil => intro current _; simp [selectLoop]
  | cons m rest ih =>
    intro current hall
    have hm : cfg.remaining m ≤ cfg.contextWindow := hall m (by simp)
    have hc : msgCost cfg m = some (cfg.contextWindow - cfg.remaining m) := by
      simp [msgCost, checkedSub, hm]
    simp only [selectLoop, hc]
    by_cases hgt : current + (cfg.contextWindow - cfg.remaining m) > tokenLimit
    · simp [hgt]
    · simp only [hgt, if_neg, ite_false]
      have := ih (current + (cfg.contextWindow - cfg.remaining m))
        (fun x hx => hall x (by simp [hx]))
      cases hrec : selectLoop cfg tokenLimit
          (current + (cfg.contextWindow - cfg.remaining m)) rest with
      | none => rw [hrec] at this; simp at this
      | some p => obtain ⟨a, b⟩ := p; simp [hgt, hrec]

/-- C10 (amended): per-turn costs are the unsigned subtraction
`context_window - remaining`; when the preamble and every history turn
report a remaining capacity at most the context window, no subtraction
underflows and the selection is produced; and there are inputs violating
the precondition on which the subtraction underflows and the request
aborts (here: the preamble itself reports 11 against a window of 10). -/
theorem windowSelect_underflow :
    (∀ (cfg : SelectorCfg) (tokenLimit : Nat) (sysMsg : Msg)
        (messages : List Msg),
      cfg.remaining sysMsg ≤ cfg.contextWindow →
      (∀ m ∈ messages, cfg.remaining m ≤ cfg.contextWindow) →
      (windowSelect cfg tokenLimit sysMsg messages).isSome) ∧
    windowSelect ⟨10, fun _ => 11⟩ 7000 ⟨Role.system, txt "s"⟩ [] = none := by
  constructor
  · intro cfg tokenLimit sysMsg messages hsys hall
    have hsc : msgCost cfg sysMsg =
        some (cfg.contextWindow - cfg.remaining sysMsg) := by
      simp [msgCost, checkedSub, hsys]
    have hloop := selectLoop_isSome cfg tokenLimit messages.reverse
      (cfg.contextWindow - cfg.remaining sysMsg)
      (fun m hm => hall m (by simpa using hm))
    cases hl : selectLoop cfg tokenLimit
        (cfg.contextWindow - cfg.remaining sysMsg) messages.reverse with
    | none => rw [hl] at hloop; simp at hloop
    | some p => obtain ⟨a, b⟩ := p; simp [windowSelect, hsc, hl]
  · decide

/-- Closed witness for `windowSelect_underflow`. -/
theorem windowSelect_underflow_witness :
    ((⟨10, fun _ => 7⟩ : SelectorCfg).remaining ⟨Role.system, txt "s"⟩ ≤ 10) ∧
    (windowSelect ⟨10, fun _ => 7⟩ 100 ⟨Role.system, txt "s"⟩
        [⟨Role.user, txt "a"⟩]).isSome :=
  ⟨by decide,
    windowSelect_underflow.1 ⟨10, fun _ => 7⟩ 100 ⟨Role.system, txt "s"⟩
      [⟨Role.user, txt "a"⟩] (by decide)
      (by intro m _; show (7 : Nat) ≤ 10; decide)⟩

/-- Counterexample for C10 as stated: "without that precondition the
subtraction underflows and the request aborts" fails — here an old turn
reports remaining capacity 99 against a window of 10 (the precondition is
violated), yet the greedy loop breaks on the newer turn before ever
examining the old one, so nothing underflows and the request proceeds
with the preamble-only selection. -/
theorem windowSelect_underflow_cex :
    ¬ (∀ m ∈ [(⟨Role.user, txt "old"⟩ : Msg), ⟨Role.user, txt "new"⟩],
        (⟨10, fun m => if m.role = Role.system then 0
            else if m.content = txt "old" then 99 else 10⟩ :
          SelectorCfg).remaining m ≤ 10) ∧
    windowSelect
        ⟨10, fun m => if m.role = Role.system then 0
          else if m.content = txt "old" then 99 else 10⟩ 5
        ⟨Role.system, txt "s"⟩
        [⟨Role.user, txt "old"⟩, ⟨Role.user, txt "new"⟩] =
      some [⟨Role.system, txt "s"⟩] := by
  constructor
  · decide
  · decide

/-- C9: after `wack` clears a channel, its snapshot is the empty history,
the record itself is still present in the store, and the next selection
over that snapshot is exactly the preamble alone. -/
theorem clearHistory_resets (s : Store) (id : String) (cfg : SelectorCfg)
    (tokenLimit : Nat) (sysMsg : Msg)
    (hsys : cfg.remaining sysMsg ≤ cfg.contextWindow) :
    snapshot (clearHistory s id) id = [] ∧
    containsId (clearHistory s id) id = true ∧
    windowSelect cfg tokenLimit sysMsg (snapshot (clearHistory s id) id) =
      some [sysMsg] := by
  have hl : lookupStore (clearHistory s id) id = some [] :=
    lookupStore_setStore_self s id []
  have hsnap : snapshot (clearHistory s id) id = [] := by
    simp [snapshot, hl]
  refine ⟨hsnap, by simp [containsId, hl], ?_⟩
  rw [hsnap]
  simp [windowSelect, msgCost, checkedSub, hsys, selectLoop]

/-- Closed witness for `clearHistory_resets`. -/
theorem clearHistory_resets_witness :
    ((⟨10, fun _ => 7⟩ : SelectorCfg).remaining ⟨Role.system, txt "s"⟩ ≤ 10) ∧
    (snapshot (clearHistory [("c", [⟨Role.user, txt "a"⟩])] "c") "c" = [] ∧
      containsId (clearHistory [("c", [⟨Role.user, txt "a"⟩])] "c") "c" = true ∧
      windowSelect ⟨10, fun _ => 7⟩ 100 ⟨Role.system, txt "s"⟩
          (snapshot (clearHistory [("c", [⟨Role.user, txt "a"⟩])] "c") "c") =
        some [⟨Role.system, txt "s"⟩]) :=
  ⟨by decide,
    clearHistory_resets [("c", [⟨Role.user, txt "a"⟩])] "c" ⟨10, fun _ => 7⟩
      100 ⟨Role.system, txt "s"⟩ (by decide)⟩

section RendererLemmas

theorem applyContent_totalResponse (e : Nat → Bool) (st : RState)
    (c : Option Text) (tm : Bool) :
    (applyContent e st c tm).totalResponse = st.totalResponse ++ c.getD [] := by
  cases c with
  | none => simp [applyContent]
  | some content =>
    simp only [applyContent, editActive, Option.getD]
    split_ifs <;> simp

theorem applyContent_slu (e : Nat → Bool) (st : RState)
    (c : Option Text) (tm : Bool) :
    (applyContent e st c tm).sinceLastUpdate =
      if c.isSome && tm then [] else st.sinceLastUpdate ++ c.getD [] := by
  cases c with
  | none => simp [applyContent]
  | some content =>
    cases tm with
    | false => simp [applyContent]
    | true =>
      have h0 : (applyContent e st (some content) true).sinceLastUpdate = [] := by
        simp only [applyContent, editActive]
        split_ifs <;> rfl
      simpa using h0

theorem runPulls_success (e : Nat → Bool) (footer : Text) :
    ∀ (pulls : List Pull) (st : RState), reachesFinish pulls = true →
      (runPulls e footer pulls st).2 =
        Outcome.success (st.totalResponse ++ deliveredText pulls) := by
  intro pulls
  induction pulls with
  | nil => intro st h; simp [reachesFinish] at h
  | cons p rest ih =>
    intro st h
    cases p with
    | errPull => simp [reachesFinish] at h
    | chunk c f tm =>
      cases f with
      | true => simp [runPulls, deliveredText, applyContent_totalResponse]
      | false =>
        simp only [reachesFinish, Bool.false_or] at h
        simp [runPulls, deliveredText, ih _ h, applyContent_totalResponse,
          List.append_assoc]

theorem runPulls_no_finish (e : Nat → Bool) (footer : Text) :
    ∀ (pulls : List Pull) (st : RState), reachesFinish pulls = false →
      ∀ t, (runPulls e footer pulls st).2 ≠ Outcome.success t := by
  intro pulls
  induction pulls with
  | nil => intro st _ t; simp [runPulls]
  | cons p rest ih =>
    intro st h t
    cases p with
    | errPull => simp [runPulls]
    | chunk c f tm =>
      cases f with
      | true => simp [reachesFinish] at h
      | false =>
        simp only [reachesFinish, Bool.false_or] at h
        simp [runPulls, ih _ h]

theorem runPulls_clean (e : Nat → Bool) (footer : Text) :
    ∀ (pulls : List Pull) (st : RState), streamClean pulls = true →
      runPulls e footer pulls st =
        ((editActive e (streamFold e pulls st)
            (txt "Error generating response!")).1, Outcome.streamError) := by
  intro pulls
  induction pulls with
  | nil => intro st _; rfl
  | cons p rest ih =>
    intro st h
    cases p with
    | errPull => simp [streamClean] at h
    | chunk c f tm =>
      cases f with
      | true => simp [streamClean] at h
      | false =>
        simp only [streamClean, Bool.not_false, Bool.true_and] at h
        simp [runPulls, streamFold, ih _ h]

theorem streamFold_slu (e : Nat → Bool) :
    ∀ (pulls : List Pull) (st : RState),
      (streamFold e pulls st).sinceLastUpdate =
        fragsAcc pulls st.sinceLastUpdate := by
  intro pulls
  induction pulls with
  | nil => intro st; rfl
  | cons p rest ih =>
    intro st
    cases p with
    | errPull => simp [streamFold, fragsAcc, ih]
    | chunk c f tm => simp [streamFold, fragsAcc, ih, applyContent_slu]

end RendererLemmas

/-- C1: for any stream of fragments that reaches a completion signal, the
assistant text committed to the channel context (footer excluded) is
exactly the concatenation of the delivered fragments, whatever the flush
timing flags and however many edits failed (spillovers occurred). -/
theorem stream_fidelity (cfg : SelectorCfg) (tokenLimit : Nat) (sysMsg : Msg)
    (e : Nat → Bool) (footer : Text) (pulls : List Pull)
    (store : Store) (chan : String) (userMsg : Msg)
    (hfin : reachesFinish pulls = true)
    (hsel : (windowSelect cfg tokenLimit sysMsg
        (snapshot (appendTurn store chan userMsg) chan)).isSome = true) :
    snapshot
        (processMessage cfg tokenLimit sysMsg e footer pulls store chan
          userMsg).1 chan =
      snapshot store chan ++
        [userMsg, mkAssistantMsg (deliveredText pulls)] := by
  obtain ⟨sel, hsel'⟩ := Option.isSome_iff_exists.mp hsel
  have hrun := runPulls_success e footer pulls initRState hfin
  simp only [processMessage, hsel', hrun]
  simp [snapshot_appendTurn_self, initRState]

/-- Closed witness for `stream_fidelity`. -/
theorem stream_fidelity_witness :
    reachesFinish [Pull.chunk (some (txt "Hel")) false false,
        Pull.chunk (some (txt "lo")) true false] = true ∧
    (windowSelect ⟨10, fun _ => 1⟩ 100 ⟨Role.system, txt "s"⟩
        (snapshot (appendTurn [] "c" ⟨Role.user, txt "hi"⟩) "c")).isSome =
      true ∧
    snapshot
        (processMessage ⟨10, fun _ => 1⟩ 100 ⟨Role.system, txt "s"⟩
          (fun _ => true) (txt "F")
          [Pull.chunk (some (txt "Hel")) false false,
            Pull.chunk (some (txt "lo")) true false] [] "c"
          ⟨Role.user, txt "hi"⟩).1 "c" =
      snapshot [] "c" ++
        [⟨Role.user, txt "hi"⟩,
          mkAssistantMsg (deliveredText
            [Pull.chunk (some (txt "Hel")) false false,
              Pull.chunk (some (txt "lo")) true false])] :=
  ⟨by decide, by decide,
    stream_fidelity ⟨10, fun _ => 1⟩ 100 ⟨Role.system, txt "s"⟩
      (fun _ => true) (txt "F")
      [Pull.chunk (some (txt "Hel")) false false,
        Pull.chunk (some (txt "lo")) true false] [] "c"
      ⟨Role.user, txt "hi"⟩ (by decide) (by decide)⟩

/-- C5: the user turn is appended to the channel history no matter how the
request ends, and an assistant turn (carrying the delivered text) is
appended exactly when the selection was built and the stream reached its
completion signal; on a mid-stream error or an abort the history gains
only the user turn. -/
theorem history_commit (cfg : SelectorCfg) (tokenLimit : Nat) (sysMsg : Msg)
    (e : Nat → Bool) (footer : Text) (pulls : List Pull)
    (store : Store) (chan : String) (userMsg : Msg) :
    (processMessage cfg tokenLimit sysMsg e footer pulls store chan
        userMsg).1 =
      if ((windowSelect cfg tokenLimit sysMsg
            (snapshot (appendTurn store chan userMsg) chan)).isSome &&
          reachesFinish pulls) then
        appendTurn (appendTurn store chan userMsg) chan
          (mkAssistantMsg (deliveredText pulls))
      else appendTurn store chan userMsg := by
  cases hsel : windowSelect cfg tokenLimit sysMsg
      (snapshot (appendTurn store chan userMsg) chan) with
  | none => simp [processMessage, hsel]
  | some sel =>
    cases hfin : reachesFinish pulls with
    | true =>
      have hrun := runPulls_success e footer pulls initRState hfin
      simp only [processMessage, hsel, hrun]
      simp [initRState, hfin]
    | false =>
      have hrun := runPulls_no_finish e footer pulls initRState hfin
      simp only [processMessage, hsel]
      cases hoc : (runPulls e footer pulls initRState).2 with
      | success t => exact absurd hoc (hrun t)
      | streamError => simp [hoc, hfin]
      | silentError => simp [hoc, hfin]

/-- Counterexample for C6 as stated: a fragment "Hello" is flushed to the
active sink, then the stream errors; the error handler *replaces* the
active sink's content with the error message, so the already-flushed
partial text does not remain visible anywhere. -/
theorem stream_error_overwrite_cex :
    (runPulls (fun _ => true) (txt "F")
        [Pull.chunk (some (txt "Hello")) false true] initRState).2 =
      Outcome.streamError ∧
    (runPulls (fun _ => true) (txt "F")
        [Pull.chunk (some (txt "Hello")) false true] initRState).1.sinks =
      [txt "Error generating response!"] ∧
    ((runPulls (fun _ => true) (txt "F")
        [Pull.chunk (some (txt "Hello")) false true] initRState).1.sinks.all
      fun s => !(occursIn (txt "Hello") s)) = true := by
  refine ⟨by decide, by decide, by decide⟩

/-- C6 (amended): when the stream errors mid-flight (ends without a
completion signal), the loop terminates with the stream-error result, the
active sink's content is replaced by the visible error message (when that
edit succeeds; partial text flushed there is overwritten, while earlier
spillover sinks keep their content), and no assistant turn is committed —
the channel history gains only the user turn. -/
theorem stream_error_behaviour (e : Nat → Bool) (footer : Text)
    (pulls : List Pull) (h : streamClean pulls = true) :
    (runPulls e footer pulls initRState).2 = Outcome.streamError ∧
    (runPulls e footer pulls initRState).1.sinks =
      (if e (streamFold e pulls initRState).editCount then
        txt "Error generating response!" ::
          (streamFold e pulls initRState).sinks.tail
      else (streamFold e pulls initRState).sinks) ∧
    (∀ (cfg : SelectorCfg) (tokenLimit : Nat) (sysMsg : Msg) (store : Store)
        (chan : String) (userMsg : Msg),
      (processMessage cfg tokenLimit sysMsg e footer pulls store chan
          userMsg).1 = appendTurn store chan userMsg) := by
  have hc := runPulls_clean e footer pulls initRState h
  refine ⟨by rw [hc], by rw [hc]; simp [editActive], ?_⟩
  intro cfg tokenLimit sysMsg store chan userMsg
  cases hsel : windowSelect cfg tokenLimit sysMsg
      (snapshot (appendTurn store chan userMsg) chan) with
  | none => simp [processMessage, hsel]
  | some sel => simp [processMessage, hsel, hc]

/-- Closed witness for `stream_error_behaviour`. -/
theorem stream_error_behaviour_witness :
    streamClean [Pull.chunk (some (txt "A")) false false] = true ∧
    (runPulls (fun _ => true) (txt "F")
        [Pull.chunk (some (txt "A")) false false] initRState).2 =
      Outcome.streamError ∧
    (processMessage ⟨10, fun _ => 1⟩ 100 ⟨Role.system, txt "s"⟩
        (fun _ => true) (txt "F") [Pull.chunk (some (txt "A")) false false]
        [] "c" ⟨Role.user, txt "hi"⟩).1 =
      appendTurn [] "c" ⟨Role.user, txt "hi"⟩ :=
  ⟨by decide,
    (stream_error_behaviour (fun _ => true) (txt "F")
      [Pull.chunk (some (txt "A")) false false] (by decide)).1,
    (stream_error_behaviour (fun _ => true) (txt "F")
      [Pull.chunk (some (txt "A")) false false] (by decide)).2.2
      ⟨10, fun _ => 1⟩ 100 ⟨Role.system, txt "s"⟩ [] "c"
      ⟨Role.user, txt "hi"⟩⟩

/-- Counterexample for C8 as stated: the final flush (with footer "F")
fails; the recovery path reruns, but the spillover sink receives only the
unflushed tail without the footer, so the footer is part of no visible
sink. -/
theorem finalize_footer_cex :
    (runPulls (fun n => !(n == 1)) (txt "F")
        [Pull.chunk (some (txt "Hi")) false true,
          Pull.chunk (some (txt "!")) true false] initRState).2 =
      Outcome.success (txt "Hi!") ∧
    (runPulls (fun n => !(n == 1)) (txt "F")
        [Pull.chunk (some (txt "Hi")) false true,
          Pull.chunk (some (txt "!")) true false] initRState).1.sinks =
      [txt "!", txt "Hi"] ∧
    ((runPulls (fun n => !(n == 1)) (txt "F")
        [Pull.chunk (some (txt "Hi")) false true,
          Pull.chunk (some (txt "!")) true false] initRState).1.sinks.all
      fun s => !(occursIn (txt "F") s)) = true := by
  refine ⟨by decide, by decide, by decide⟩

/-- C8 (amended): on the completion signal the footer is appended to the
final content and a last flush is attempted; when that flush succeeds the
footer is a suffix of the active sink's visible text, but when it fails
the Overflow recovery seeds the spillover sink with the unflushed tail
only — the footer is not part of the recovered content.  The last
conjunct records that a finish chunk indeed dispatches to this
finalization. -/
theorem finalize_footer (e : Nat → Bool) (footer : Text) (st : RState) :
    (finalizeResp e footer st).sinks =
      (if e st.editCount then (st.response ++ footer) :: st.sinks.tail
       else
        (if e (st.editCount + 1) then st.sinceLastUpdate
         else txt "Continuing response...") :: st.sinks) ∧
    (e st.editCount = true →
      footer <:+ ((finalizeResp e footer st).sinks.headD [])) ∧
    (∀ (c : Option Text) (tm : Bool) (rest : List Pull) (st0 : RState),
      runPulls e footer (Pull.chunk c true tm :: rest) st0 =
        (finalizeResp e footer (applyContent e st0 c tm),
          Outcome.success (applyContent e st0 c tm).totalResponse)) := by
  refine ⟨?_, ?_, ?_⟩
  · simp only [finalizeResp, editActive]
    split_ifs <;> rfl
  · intro hok
    simp only [finalizeResp, editActive, hok]
    simp
  · intro c tm rest st0
    rfl

/-- Closed witness for `finalize_footer`. -/
theorem finalize_footer_witness :
    ((fun _ => true : Nat → Bool) initRState.editCount = true) ∧
    txt "F" <:+
      ((finalizeResp (fun _ => true) (txt "F") initRState).sinks.headD []) :=
  ⟨rfl, (finalize_footer (fun _ => true) (txt "F") initRState).2.1 rfl⟩

/-- Counterexample for C2 as stated: flush of "A" succeeds; the flush
covering "B" fails and the spillover's own seed write also fails; the
flush covering "C" then fails.  At that second spillover the text
accumulated since the previous *successful* flush is "BC", but the seed
is only "C" (the text since the previous flush *attempt*) — and the
character "B" ends up visible on no sink at all. -/
theorem spill_seed_cex :
    (runPulls (fun n => n == 0 || n == 4) (txt "F")
        [Pull.chunk (some (txt "A")) false true,
          Pull.chunk (some (txt "B")) false true,
          Pull.chunk (some (txt "C")) false true] initRState).1.spills =
      [(txt "B", txt "B"), (txt "C", txt "BC")] ∧
    (txt "C" : Text) ≠ txt "BC" ∧
    (runPulls (fun n => n == 0 || n == 4) (txt "F")
        [Pull.chunk (some (txt "A")) false true,
          Pull.chunk (some (txt "B")) false true,
          Pull.chunk (some (txt "C")) false true] initRState).1.sinks =
      [txt "C", txt "Continuing response...", txt "A"] ∧
    ((runPulls (fun n => n == 0 || n == 4) (txt "F")
        [Pull.chunk (some (txt "A")) false true,
          Pull.chunk (some (txt "B")) false true,
          Pull.chunk (some (txt "C")) false true] initRState).1.sinks.all
      fun s => !(occursIn (txt "B") s)) = true := by
  refine ⟨by decide, by decide, by decide, by decide⟩

/-- C2 (amended): when a flush to the active sink fails during streaming,
the spillover sink is seeded with exactly the unflushed tail — the text
accumulated since the previous flush *attempt* (successful or not), which
a second conjunct characterizes purely from the input stream; the old
sink keeps its content (no duplication), and the ghost pair recorded with
each spillover shows the seed coincides with the text since the previous
*successful* flush exactly when no intervening seed write failed. -/
theorem spill_seed (e : Nat → Bool) :
    (∀ (st : RState) (content : Text), e st.editCount = false →
      (applyContent e st (some content) true).spills =
        st.spills ++ [(st.sinceLastUpdate ++ content,
          st.sinceLastSuccess ++ content)] ∧
      (applyContent e st (some content) true).response =
        st.sinceLastUpdate ++ content ∧
      (applyContent e st (some content) true).sinks =
        (if e (st.editCount + 1) then st.sinceLastUpdate ++ content
         else txt "Continuing response...") :: st.sinks ∧
      (applyContent e st (some content) true).sinceLastUpdate = []) ∧
    (∀ (pulls : List Pull),
      (streamFold e pulls initRState).sinceLastUpdate = fragsAcc pulls []) := by
  constructor
  · intro st content hfail
    refine ⟨?_, ?_, ?_, ?_⟩ <;>
      (simp only [applyContent, editActive]; split_ifs <;> simp_all)
  · intro pulls
    have h := streamFold_slu e pulls initRState
    simpa [initRState] using h

/-- Closed witness for `spill_seed`. -/
theorem spill_seed_witness :
    ((fun _ => false : Nat → Bool) initRState.editCount = false) ∧
    (applyContent (fun _ => false) initRState (some (txt "A")) true).spills =
      initRState.spills ++ [(initRState.sinceLastUpdate ++ txt "A",
        initRState.sinceLastSuccess ++ txt "A")] ∧
    (streamFold (fun _ => false) [Pull.chunk (some (txt "A")) false true]
        initRState).sinceLastUpdate =
      fragsAcc [Pull.chunk (some (txt "A")) false true] [] :=
  ⟨rfl,
    ((spill_seed (fun _ => false)).1 initRState (txt "A") rfl).1,
    (spill_seed (fun _ => false)).2 [Pull.chunk (some (txt "A")) false true]⟩
